import Mathlib

/-!
Verification development for the LectureLedger lesson tracker
(`src/Lessons.py`): a Tkinter front end over a single SQLite table
`lessons(id, title, course, day, done, created_at)`.

The store layer (`LessonsDB`) and the dialog validation (`LessonDialog._save`)
are shallowly embedded below.  Conventions of the embedding:

* SQLite TEXT values are Lean `String`s; the BINARY collation (bytewise
  comparison of UTF-8) coincides with lexicographic comparison of the
  codepoint lists `String.data`, which is what `cmpChars` implements.
* The NOCASE collation folds only the ASCII letters A-Z to lowercase before
  the bytewise comparison; `nocaseChar` / `nocaseKey` implement that fold.
* SQLite INTEGER values are Lean `Int`.  `AUTOINCREMENT` row ids are modelled
  by the `nextId` counter of `LessonsDB`.
* Python `str.strip()` removes leading and trailing whitespace; `isPySpace`
  lists the code points Python treats as whitespace.
* `ORDER BY day ASC, course COLLATE NOCASE ASC, done ASC, id ASC` is a total
  order on rows with distinct ids; the result list is produced with the
  stable `List.mergeSort` under `rowLe`, the boolean version of that order.
* `SELECT DISTINCT course ... ORDER BY course COLLATE NOCASE` deduplicates
  under the BINARY collation of the column (case variants are kept), keeping
  the first occurrence in scan order, and then sorts stably under NOCASE;
  this is the behaviour observed of SQLite on this exact statement.
* `datetime.strptime(s, "%Y-%m-%d")` is modelled by `validate_iso_date`:
  the year is exactly four digits, month and day follow the lenient CPython
  patterns (`1[0-2]|0[1-9]|[1-9]` and `3[01]|[12][0-9]|0[1-9]|[1-9]`,
  tried in that order with backtracking), the whole string must be consumed,
  and the resulting triple must be a real proleptic-Gregorian date with
  year at least 1.  (CPython's regexes also accept non-ASCII decimal digits;
  the model restricts digits to ASCII, which is the only range the
  application can meaningfully store.)
-/

/-- Code points for which Python `str.isspace()` holds, hence stripped by
`str.strip()`. -/
def isPySpace (c : Char) : Bool :=
  c = ' ' || c = '\t' || c = '\n' || c = '\x0b' || c = '\x0c' || c = '\r' ||
  c = '\x1c' || c = '\x1d' || c = '\x1e' || c = '\x1f' || c = '\x85' ||
  c = '\xa0' || c = ' ' || (' ' ≤ c && c ≤ ' ') ||
  c = ' ' || c = ' ' || c = ' ' || c = ' ' || c = '　'

/-- Python `s.strip()`: drop leading and trailing whitespace. -/
def pyStrip (s : String) : String :=
  ⟨((s.data.dropWhile isPySpace).reverse.dropWhile isPySpace).reverse⟩

/-- ASCII digit test (the `\d` of the CPython strptime regexes, restricted
to ASCII as explained in the header). -/
def isDigit (c : Char) : Bool := '0' ≤ c && c ≤ '9'

/-- Numeric value of an ASCII digit. -/
def digitVal (c : Char) : Nat := c.toNat - '0'.toNat

/-- Alternatives of the CPython `%m` pattern `1[0-2]|0[1-9]|[1-9]`, in
alternation order, each with the remaining input. -/
def monthAlts : List Char → List (Nat × List Char)
  | c1 :: c2 :: rest =>
    (if c1 = '1' && (c2 = '0' || c2 = '1' || c2 = '2') then
      [(10 + digitVal c2, rest)] else []) ++
    (if c1 = '0' && (isDigit c2 && c2 ≠ '0') then
      [(digitVal c2, rest)] else []) ++
    (if isDigit c1 && c1 ≠ '0' then [(digitVal c1, c2 :: rest)] else [])
  | [c1] => if isDigit c1 && c1 ≠ '0' then [(digitVal c1, [])] else []
  | [] => []

/-- Alternatives of the CPython `%d` pattern `3[01]|[12]\d|0[1-9]|[1-9]`,
in alternation order, each with the remaining input. -/
def dayAlts : List Char → List (Nat × List Char)
  | c1 :: c2 :: rest =>
    (if c1 = '3' && (c2 = '0' || c2 = '1') then
      [(30 + digitVal c2, rest)] else []) ++
    (if (c1 = '1' || c1 = '2') && isDigit c2 then
      [(10 * digitVal c1 + digitVal c2, rest)] else []) ++
    (if c1 = '0' && (isDigit c2 && c2 ≠ '0') then
      [(digitVal c2, rest)] else []) ++
    (if isDigit c1 && c1 ≠ '0' then [(digitVal c1, c2 :: rest)] else [])
  | [c1] => if isDigit c1 && c1 ≠ '0' then [(digitVal c1, [])] else []
  | [] => []

/-- Full match of the compiled `%Y-%m-%d` pattern against a character list:
exactly four digits of year, a dash, then the month and day alternatives
tried with backtracking; the whole input must be consumed. -/
def matchYMD : List Char → Option (Nat × Nat × Nat)
  | y1 :: y2 :: y3 :: y4 :: '-' :: rest =>
    if isDigit y1 && isDigit y2 && isDigit y3 && isDigit y4 then
      let y := ((digitVal y1 * 10 + digitVal y2) * 10 + digitVal y3) * 10 +
        digitVal y4
      (monthAlts rest).findSome? (fun mr =>
        match mr.2 with
        | '-' :: r2 =>
          (dayAlts r2).findSome? (fun dr =>
            if dr.2 = [] then some (y, mr.1, dr.1) else none)
        | _ => none)
    else none
  | _ => none

/-- Proleptic Gregorian leap-year rule used by `datetime`. -/
def isLeap (y : Nat) : Bool := y % 4 = 0 && (y % 100 ≠ 0 || y % 400 = 0)

/-- Number of days of month `m` of year `y`. -/
def daysInMonth (y m : Nat) : Nat :=
  if m = 2 then (if isLeap y then 29 else 28)
  else if m = 4 || m = 6 || m = 9 || m = 11 then 30
  else 31

/-- Embedding of `validate_iso_date` from `src/Lessons.py`: strip the input,
match the strptime `%Y-%m-%d` pattern, and require the matched triple to be
constructible as a `datetime` (year at least 1, day within the month). -/
def validate_iso_date (s : String) : Bool :=
  match matchYMD (pyStrip s).data with
  | some (y, m, d) => decide (1 ≤ y) && decide (d ≤ daysInMonth y m)
  | none => false

/-- One row of the `lessons` table. -/
structure Lesson where
  id : Int
  title : String
  course : String
  day : String
  done : Int
  created_at : String
deriving DecidableEq, Repr

/-- The store: the rows of the `lessons` table together with the next
`AUTOINCREMENT` id. -/
structure LessonsDB where
  rows : List Lesson
  nextId : Int
deriving DecidableEq, Repr

/-- The store as created by `_init_schema` on a fresh database file. -/
def initDB : LessonsDB := ⟨[], 1⟩

/-- Embedding of `LessonsDB.add_lesson`: INSERT of the stripped fields with
a fresh id; `created_at` receives the server timestamp `now`. -/
def add_lesson (db : LessonsDB) (title course day : String) (done : Int)
    (now : String) : LessonsDB :=
  let newRow : Lesson :=
    { id := db.nextId, title := pyStrip title, course := pyStrip course,
      day := pyStrip day, done := done, created_at := now }
  { rows := db.rows ++ [newRow], nextId := db.nextId + 1 }

/-- Embedding of `LessonsDB.update_lesson`: UPDATE of title, course, day and
done (stripped text fields) on the rows matching `i`. -/
def update_lesson (db : LessonsDB) (i : Int) (title course day : String)
    (done : Int) : LessonsDB :=
  { db with rows := db.rows.map (fun r =>
      if r.id = i then
        { r with
          title := pyStrip title
          course := pyStrip course
          day := pyStrip day
          done := done }
      else r) }

/-- Embedding of `LessonsDB.delete_lesson`: DELETE of the rows matching `i`. -/
def delete_lesson (db : LessonsDB) (i : Int) : LessonsDB :=
  { db with rows := db.rows.filter (fun r => r.id ≠ i) }

/-- Embedding of `LessonsDB.toggle_done`:
UPDATE ... SET done = CASE done WHEN 0 THEN 1 ELSE 0 END WHERE id = `i`. -/
def toggle_done (db : LessonsDB) (i : Int) : LessonsDB :=
  { db with rows := db.rows.map (fun r =>
      if r.id = i then { r with done := if r.done = 0 then 1 else 0 }
      else r) }

/-- Bytewise comparison of two codepoint lists: the SQLite BINARY collation
on the corresponding UTF-8 strings. -/
def cmpChars : List Char → List Char → Ordering
  | [], [] => .eq
  | [], _ :: _ => .lt
  | _ :: _, [] => .gt
  | a :: as, b :: bs =>
    if a < b then .lt else if b < a then .gt else cmpChars as bs

/-- Comparison of two integers as SQLite compares INTEGER values. -/
def cmpInt (a b : Int) : Ordering :=
  if a < b then .lt else if b < a then .gt else .eq

/-- The ASCII-only case fold of the SQLite NOCASE collation. -/
def nocaseChar (c : Char) : Char :=
  if 'A' ≤ c && c ≤ 'Z' then Char.ofNat (c.toNat + 32) else c

/-- Sort key of a string under the NOCASE collation. -/
def nocaseKey (s : String) : List Char := s.data.map nocaseChar

/-- The comparator of
`ORDER BY day ASC, course COLLATE NOCASE ASC, done ASC, id ASC`. -/
def rowCmp (a b : Lesson) : Ordering :=
  (cmpChars a.day.data b.day.data).then
    ((cmpChars (nocaseKey a.course) (nocaseKey b.course)).then
      ((cmpInt a.done b.done).then (cmpInt a.id b.id)))

/-- Boolean order used to sort query results. -/
def rowLe (a b : Lesson) : Bool := rowCmp a b ≠ Ordering.gt

/-- The WHERE clause assembled by `LessonsDB.query`: a day clause unless the
day filter is falsy (absent or empty) or the sentinel TUTTE, a course clause
unless the course filter is falsy or the sentinel TUTTI, and `done = 0` when
`only_undone` is requested. -/
def keep_row (day course : Option String) (onlyUndone : Bool)
    (r : Lesson) : Bool :=
  (match day with
   | none => true
   | some s => if s ≠ "" ∧ s ≠ "TUTTE" then r.day == s else true) &&
  (match course with
   | none => true
   | some s => if s ≠ "" ∧ s ≠ "TUTTI" then r.course == s else true) &&
  (if onlyUndone then r.done == 0 else true)

/-- Embedding of `LessonsDB.query`: filter by the assembled WHERE clause and
sort by day, course (NOCASE), done, id. -/
def query (db : LessonsDB) (day course : Option String)
    (onlyUndone : Bool) : List Lesson :=
  (db.rows.filter (keep_row day course onlyUndone)).mergeSort rowLe

/-- First-occurrence deduplication under exact string equality: the effect
of SELECT DISTINCT under the BINARY collation of the column, in scan order. -/
def distinctFirst : List String → List String
  | [] => []
  | x :: xs => x :: distinctFirst (xs.filter (fun y => y ≠ x))
termination_by l => l.length
decreasing_by
  simp only [List.length_cons]
  exact Nat.lt_succ_of_le (List.length_filter_le _ _)

/-- NOCASE comparison of two course strings, as a boolean order. -/
def courseLe (a b : String) : Bool :=
  cmpChars (nocaseKey a) (nocaseKey b) ≠ Ordering.gt

/-- Embedding of `LessonsDB.list_courses`:
SELECT DISTINCT course FROM lessons ORDER BY course COLLATE NOCASE. -/
def list_courses (db : LessonsDB) : List String :=
  (distinctFirst (db.rows.map Lesson.course)).mergeSort courseLe

/-- The validated payload a closed dialog hands to the controller. -/
structure LessonPayload where
  title : String
  course : String
  day : String
  done : Int
deriving DecidableEq, Repr

/-- Outcome of one press of the Salva button (`LessonDialog._save`). -/
inductive SaveOutcome
  | rejectedTitle
  | rejectedCourse
  | rejectedDay
  | confirmed (p : LessonPayload)
deriving DecidableEq, Repr

/-- Embedding of `LessonDialog._save`: strip the three entries, reject (with
the dialog left open) on empty title, empty course or invalid date, in that
order; otherwise close with the validated payload. -/
def dialog_save (rawTitle rawCourse rawDay : String) (done : Int) :
    SaveOutcome :=
  let title := pyStrip rawTitle
  let course := pyStrip rawCourse
  let day := pyStrip rawDay
  if title = "" then .rejectedTitle
  else if course = "" then .rejectedCourse
  else if validate_iso_date day = false then .rejectedDay
  else .confirmed ⟨title, course, day, done⟩

/-- One save attempt of the add interaction (`App._add`): on a confirmed
dialog the payload goes to `add_lesson` and the dialog closes; on a rejected
save the dialog stays open (boolean component) and the store is untouched. -/
def app_add_save (db : LessonsDB) (rawTitle rawCourse rawDay : String)
    (done : Int) (now : String) : LessonsDB × Bool :=
  match dialog_save rawTitle rawCourse rawDay done with
  | .confirmed p => (add_lesson db p.title p.course p.day p.done now, false)
  | _ => (db, true)

/-- One save attempt of the edit interaction (`App._edit_selected`). -/
def app_edit_save (db : LessonsDB) (i : Int)
    (rawTitle rawCourse rawDay : String) (done : Int) : LessonsDB × Bool :=
  match dialog_save rawTitle rawCourse rawDay done with
  | .confirmed p => (update_lesson db i p.title p.course p.day p.done, false)
  | _ => (db, true)

/-- One store mutation as issued by the application: add and edit go through
the dialog (so the payload is validated and the done flag comes from the
0/1 checkbox variable); delete and toggle take any id. -/
inductive AppStep : LessonsDB → LessonsDB → Prop
  | add (db : LessonsDB) (t c d : String) (dn : Int) (now : String)
      (p : LessonPayload) (h : dialog_save t c d dn = .confirmed p)
      (hdn : dn = 0 ∨ dn = 1) :
      AppStep db (add_lesson db p.title p.course p.day p.done now)
  | edit (db : LessonsDB) (i : Int) (t c d : String) (dn : Int)
      (p : LessonPayload) (h : dialog_save t c d dn = .confirmed p)
      (hdn : dn = 0 ∨ dn = 1) :
      AppStep db (update_lesson db i p.title p.course p.day p.done)
  | del (db : LessonsDB) (i : Int) : AppStep db (delete_lesson db i)
  | toggle (db : LessonsDB) (i : Int) : AppStep db (toggle_done db i)

/-- Store states reachable from a fresh database through the application. -/
def Reachable (db : LessonsDB) : Prop :=
  Relation.ReflTransGen AppStep initDB db

/-- Spec-level day format: the zero-padded ISO 8601 pattern YYYY-MM-DD,
written from the words of the specification (four digits, dash, two digits,
dash, two digits). -/
def spec_iso_pattern (s : String) : Bool :=
  match s.data with
  | [y1, y2, y3, y4, h1, m1, m2, h2, d1, d2] =>
    isDigit y1 && isDigit y2 && isDigit y3 && isDigit y4 &&
    (h1 == '-') && isDigit m1 && isDigit m2 && (h2 == '-') &&
    isDigit d1 && isDigit d2
  | _ => false

/-- The filtering predicate in the words of the specification: no day
restriction when the day filter is absent, empty or the all-days sentinel,
otherwise exact match; likewise for the course filter with the all-courses
sentinel; `done = 0` when only undone rows are requested. -/
def spec_query_keep (day course : Option String) (onlyUndone : Bool)
    (r : Lesson) : Bool :=
  (match day with
   | none => true
   | some s => if s = "TUTTE" ∨ s = "" then true else r.day == s) &&
  (match course with
   | none => true
   | some s => if s = "TUTTI" ∨ s = "" then true else r.course == s) &&
  (!onlyUndone || r.done == 0)

/-- The ordering stated by the specification for query results: day
ascending (bytewise), then course ascending under the case-insensitive
collation, then done ascending, then id ascending. -/
def lessonOrdLe (a b : Lesson) : Prop :=
  cmpChars a.day.data b.day.data = Ordering.lt ∨
  (a.day = b.day ∧
    (cmpChars (nocaseKey a.course) (nocaseKey b.course) = Ordering.lt ∨
      (nocaseKey a.course = nocaseKey b.course ∧
        (a.done < b.done ∨ (a.done = b.done ∧ a.id ≤ b.id)))))

/-! ### Properties of the comparators -/

theorem then_eq_eq (o₁ o₂ : Ordering) :
    o₁.then o₂ = Ordering.eq ↔ o₁ = Ordering.eq ∧ o₂ = Ordering.eq := by
  cases o₁ <;> simp [Ordering.then]

theorem then_eq_lt (o₁ o₂ : Ordering) :
    o₁.then o₂ = Ordering.lt ↔
      o₁ = Ordering.lt ∨ (o₁ = Ordering.eq ∧ o₂ = Ordering.lt) := by
  cases o₁ <;> simp [Ordering.then]

theorem then_swap (o₁ o₂ : Ordering) :
    (o₁.then o₂).swap = o₁.swap.then o₂.swap := by
  cases o₁ <;> simp [Ordering.then, Ordering.swap]

theorem cmpChars_eq_iff (a b : List Char) :
    cmpChars a b = Ordering.eq ↔ a = b := by
  induction a generalizing b with
  | nil => cases b <;> simp [cmpChars]
  | cons x xs ih =>
    cases b with
    | nil => simp [cmpChars]
    | cons y ys =>
      simp only [cmpChars]
      split_ifs with h1 h2
      · simp only [List.cons.injEq]
        constructor
        · intro h; cases h
        · rintro ⟨rfl, -⟩; exact absurd h1 (lt_irrefl x)
      · simp only [List.cons.injEq]
        constructor
        · intro h; cases h
        · rintro ⟨rfl, -⟩; exact absurd h2 (lt_irrefl x)
      · have hxy : x = y := le_antisymm (not_lt.mp h2) (not_lt.mp h1)
        subst hxy
        simp [ih]

theorem cmpChars_swap (a b : List Char) :
    (cmpChars a b).swap = cmpChars b a := by
  induction a generalizing b with
  | nil => cases b <;> simp [cmpChars, Ordering.swap]
  | cons x xs ih =>
    cases b with
    | nil => simp [cmpChars, Ordering.swap]
    | cons y ys =>
      simp only [cmpChars]
      rcases lt_trichotomy x y with h | h | h
      · simp [h, not_lt.mpr (le_of_lt h), Ordering.swap]
      · subst h; simp [lt_irrefl, ih]
      · simp [h, not_lt.mpr (le_of_lt h), Ordering.swap]

theorem cmpChars_lt_trans {a b c : List Char}
    (h1 : cmpChars a b = Ordering.lt) (h2 : cmpChars b c = Ordering.lt) :
    cmpChars a c = Ordering.lt := by
  induction a generalizing b c with
  | nil =>
    cases c with
    | nil =>
      cases b with
      | nil => simp [cmpChars] at h1
      | cons y ys => simp [cmpChars] at h2
    | cons z zs => simp [cmpChars]
  | cons x xs ih =>
    cases b with
    | nil => simp [cmpChars] at h1
    | cons y ys =>
      cases c with
      | nil => simp [cmpChars] at h2
      | cons z zs =>
        simp only [cmpChars] at h1 h2 ⊢
        by_cases hxy : x < y
        · by_cases hyz : y < z
          · simp [lt_trans hxy hyz]
          · by_cases hzy : z < y
            · rw [if_neg hyz, if_pos hzy] at h2
              simp at h2
            · have heq : y = z := le_antisymm (not_lt.mp hzy) (not_lt.mp hyz)
              subst heq
              simp [hxy]
        · by_cases hyx : y < x
          · rw [if_neg hxy, if_pos hyx] at h1
            simp at h1
          · have heq : x = y := le_antisymm (not_lt.mp hyx) (not_lt.mp hxy)
            subst heq
            rw [if_neg hxy, if_neg hyx] at h1
            by_cases hxz : x < z
            · simp [hxz]
            · by_cases hzx : z < x
              · rw [if_neg hxz, if_pos hzx] at h2
                simp at h2
              · have heq2 : x = z := le_antisymm (not_lt.mp hzx) (not_lt.mp hxz)
                subst heq2
                rw [if_neg hxz, if_neg hzx] at h2
                simp [hxz, ih h1 h2]

theorem cmpInt_eq_iff (a b : Int) : cmpInt a b = Ordering.eq ↔ a = b := by
  unfold cmpInt
  split_ifs with h1 h2 <;> simp <;> omega

theorem cmpInt_swap (a b : Int) : (cmpInt a b).swap = cmpInt b a := by
  unfold cmpInt
  rcases lt_trichotomy a b with h | h | h
  · simp [h, show ¬ b < a by omega, Ordering.swap]
  · subst h
    simp [lt_irrefl, Ordering.swap]
  · simp [h, show ¬ a < b by omega, Ordering.swap]

theorem cmpInt_lt_iff (a b : Int) : cmpInt a b = Ordering.lt ↔ a < b := by
  unfold cmpInt
  split_ifs with h1 h2 <;> simp <;> omega

theorem rowCmp_eq_iff (a b : Lesson) :
    rowCmp a b = Ordering.eq ↔
      a.day = b.day ∧ nocaseKey a.course = nocaseKey b.course ∧
        a.done = b.done ∧ a.id = b.id := by
  unfold rowCmp
  simp only [then_eq_eq, cmpChars_eq_iff, cmpInt_eq_iff, and_assoc]
  constructor
  · rintro ⟨h1, h2, h3, h4⟩
    exact ⟨String.ext h1, h2, h3, h4⟩
  · rintro ⟨h1, h2, h3, h4⟩
    exact ⟨by rw [h1], h2, h3, h4⟩

theorem rowCmp_swap (a b : Lesson) : (rowCmp a b).swap = rowCmp b a := by
  unfold rowCmp
  rw [then_swap, then_swap, then_swap, cmpChars_swap, cmpChars_swap,
    cmpInt_swap, cmpInt_swap]

theorem rowLe_eq_true_iff (a b : Lesson) :
    rowLe a b = true ↔ rowCmp a b ≠ Ordering.gt := by
  simp [rowLe]

theorem rowLe_iff (a b : Lesson) : rowLe a b = true ↔ lessonOrdLe a b := by
  rw [rowLe_eq_true_iff]
  have hsplit : rowCmp a b ≠ Ordering.gt ↔
      rowCmp a b = Ordering.lt ∨ rowCmp a b = Ordering.eq := by
    cases h : rowCmp a b <;> simp
  rw [hsplit]
  unfold rowCmp lessonOrdLe
  simp only [then_eq_lt, then_eq_eq, cmpChars_eq_iff, cmpInt_eq_iff,
    cmpInt_lt_iff]
  constructor
  · rintro ((h | ⟨hde, (h | ⟨hce, (h | ⟨he1, he2⟩)⟩)⟩) | ⟨h1, h2, h3, h4⟩)
    · exact Or.inl h
    · exact Or.inr ⟨String.ext hde, Or.inl h⟩
    · exact Or.inr ⟨String.ext hde, Or.inr ⟨hce, Or.inl h⟩⟩
    · exact Or.inr ⟨String.ext hde, Or.inr ⟨hce, Or.inr ⟨he1, le_of_lt he2⟩⟩⟩
    · exact Or.inr ⟨String.ext h1, Or.inr ⟨h2, Or.inr ⟨h3, le_of_eq h4⟩⟩⟩
  · rintro (h | ⟨hde, (h | ⟨hce, (h | ⟨he1, he2⟩)⟩)⟩)
    · exact Or.inl (Or.inl h)
    · exact Or.inl (Or.inr ⟨congrArg String.data hde, Or.inl h⟩)
    · exact Or.inl (Or.inr ⟨congrArg String.data hde, Or.inr ⟨hce, Or.inl h⟩⟩)
    · rcases lt_or_eq_of_le he2 with h2 | h2
      · exact Or.inl (Or.inr ⟨congrArg String.data hde, Or.inr ⟨hce,
          Or.inr ⟨he1, h2⟩⟩⟩)
      · exact Or.inr ⟨congrArg String.data hde, hce, he1, h2⟩

theorem lessonOrdLe_trans {a b c : Lesson}
    (h1 : lessonOrdLe a b) (h2 : lessonOrdLe b c) : lessonOrdLe a c := by
  unfold lessonOrdLe at h1 h2 ⊢
  rcases h1 with h1 | ⟨hd1, h1⟩
  · rcases h2 with h2 | ⟨hd2, h2⟩
    · exact Or.inl (cmpChars_lt_trans h1 h2)
    · refine Or.inl ?_
      rw [← hd2]
      exact h1
  · rcases h2 with h2 | ⟨hd2, h2⟩
    · refine Or.inl ?_
      rw [hd1]
      exact h2
    · refine Or.inr ⟨hd1.trans hd2, ?_⟩
      rcases h1 with h1 | ⟨hc1, h1⟩ <;> rcases h2 with h2 | ⟨hc2, h2⟩
      · exact Or.inl (cmpChars_lt_trans h1 h2)
      · refine Or.inl ?_; rw [← hc2]; exact h1
      · refine Or.inl ?_; rw [hc1]; exact h2
      · refine Or.inr ⟨hc1.trans hc2, ?_⟩
        omega

theorem rowLe_trans (a b c : Lesson)
    (h1 : rowLe a b = true) (h2 : rowLe b c = true) : rowLe a c = true := by
  rw [rowLe_iff] at h1 h2 ⊢
  exact lessonOrdLe_trans h1 h2

theorem rowLe_total (a b : Lesson) : (rowLe a b || rowLe b a) = true := by
  by_cases h : rowCmp a b = Ordering.gt
  · have hba : rowCmp b a = Ordering.lt := by
      rw [← rowCmp_swap, h]; rfl
    have : rowLe b a = true := by
      rw [rowLe_eq_true_iff, hba]; simp
    simp [this]
  · have : rowLe a b = true := by rw [rowLe_eq_true_iff]; exact h
    simp [this]

theorem rowLe_antisymm_key {a b : Lesson}
    (h1 : rowLe a b = true) (h2 : rowLe b a = true) :
    rowCmp a b = Ordering.eq := by
  rw [rowLe_eq_true_iff] at h1 h2
  rw [← rowCmp_swap] at h2
  cases h : rowCmp a b with
  | lt => rw [h] at h2; simp [Ordering.swap] at h2
  | eq => rfl
  | gt => exact absurd h h1

theorem courseLe_eq_true_iff (a b : String) :
    courseLe a b = true ↔ cmpChars (nocaseKey a) (nocaseKey b) ≠ Ordering.gt := by
  simp [courseLe]

theorem courseLe_trans (a b c : String)
    (h1 : courseLe a b = true) (h2 : courseLe b c = true) :
    courseLe a c = true := by
  rw [courseLe_eq_true_iff] at h1 h2 ⊢
  have hab : cmpChars (nocaseKey a) (nocaseKey b) = Ordering.lt ∨
      nocaseKey a = nocaseKey b := by
    cases h : cmpChars (nocaseKey a) (nocaseKey b)
    · exact Or.inl rfl
    · exact Or.inr ((cmpChars_eq_iff _ _).mp h)
    · exact absurd h h1
  have hbc : cmpChars (nocaseKey b) (nocaseKey c) = Ordering.lt ∨
      nocaseKey b = nocaseKey c := by
    cases h : cmpChars (nocaseKey b) (nocaseKey c)
    · exact Or.inl rfl
    · exact Or.inr ((cmpChars_eq_iff _ _).mp h)
    · exact absurd h h2
  rcases hab with hab | hab <;> rcases hbc with hbc | hbc
  · rw [cmpChars_lt_trans hab hbc]; simp
  · rw [← hbc, hab]; simp
  · rw [hab, hbc]; simp
  · rw [hab, hbc, (cmpChars_eq_iff _ _).mpr rfl]; simp

theorem courseLe_total (a b : String) : (courseLe a b || courseLe b a) = true := by
  by_cases h : cmpChars (nocaseKey a) (nocaseKey b) = Ordering.gt
  · have hba : cmpChars (nocaseKey b) (nocaseKey a) = Ordering.lt := by
      rw [← cmpChars_swap, h]; rfl
    have : courseLe b a = true := by
      rw [courseLe_eq_true_iff, hba]; simp
    simp [this]
  · have : courseLe a b = true := by rw [courseLe_eq_true_iff]; exact h
    simp [this]

/-! ### Stripping is idempotent -/

theorem dropWhile_dropWhile {α : Type} (p : α → Bool) (l : List α) :
    (l.dropWhile p).dropWhile p = l.dropWhile p := by
  induction l with
  | nil => simp
  | cons a t ih =>
    rw [List.dropWhile_cons]
    by_cases h : p a = true
    · rw [if_pos h]
      exact ih
    · rw [if_neg h, List.dropWhile_cons, if_neg h]

theorem dropWhile_of_prefix {α : Type} (p : α → Bool) {m l : List α}
    (hpre : m <+: l) (hfix : l.dropWhile p = l) : m.dropWhile p = m := by
  cases m with
  | nil => simp
  | cons a t =>
    obtain ⟨s, hs⟩ := hpre
    have ha : p a = false := by
      by_contra hpa
      have hb : p a = true := by simpa using hpa
      have hdrop : l.dropWhile p = (t ++ s).dropWhile p := by
        rw [← hs, List.cons_append, List.dropWhile_cons, hb]
        rw [if_pos rfl]
      have hlen : ((t ++ s).dropWhile p).length ≤ (t ++ s).length :=
        (List.dropWhile_suffix p).sublist.length_le
      rw [hfix] at hdrop
      have hll : l.length = t.length + s.length + 1 := by
        rw [← hs]
        simp [List.length_append]
      rw [hdrop] at hll
      rw [List.length_append] at hlen
      omega
    rw [List.dropWhile_cons, ha]
    simp

theorem pyStrip_idem (s : String) : pyStrip (pyStrip s) = pyStrip s := by
  unfold pyStrip
  have hm : (s.data.dropWhile isPySpace).dropWhile isPySpace =
      s.data.dropWhile isPySpace := dropWhile_dropWhile _ _
  set m := s.data.dropWhile isPySpace with hmdef
  set w := m.reverse.dropWhile isPySpace with hwdef
  have hdata : (String.mk w.reverse).data = w.reverse := rfl
  rw [hdata]
  have hw : w.dropWhile isPySpace = w := by
    rw [hwdef]
    exact dropWhile_dropWhile _ _
  have hwr : w.reverse.dropWhile isPySpace = w.reverse := by
    refine dropWhile_of_prefix isPySpace ?_ hm
    have : w <:+ m.reverse := by rw [hwdef]; exact List.dropWhile_suffix _
    have h2 : w.reverse <+: m.reverse.reverse := List.reverse_prefix.mpr this
    simpa using h2
  rw [hwr, List.reverse_reverse, hw]

theorem validate_iso_date_pyStrip (s : String) :
    validate_iso_date (pyStrip s) = validate_iso_date s := by
  unfold validate_iso_date
  rw [pyStrip_idem]

/-! ### Sorted permutations with distinct keys are equal -/

theorem eq_of_perm_of_sorted_of_antisymm {α : Type} {le : α → α → Bool} :
    ∀ {l₁ l₂ : List α}, l₁.Perm l₂ →
      l₁.Pairwise (fun a b => le a b = true) →
      l₂.Pairwise (fun a b => le a b = true) →
      (∀ a ∈ l₁, ∀ b ∈ l₁, le a b = true → le b a = true → a = b) →
      l₁ = l₂
  | [], l₂, hp, _, _, _ => by simpa using hp.nil_eq
  | a :: t₁, [], hp, _, _, _ => by simpa using hp.symm.nil_eq
  | a :: t₁, b :: t₂, hp, hs₁, hs₂, hanti => by
    have hab : a = b := by
      by_contra hne
      have ha2 : a ∈ b :: t₂ := hp.mem_iff.mp (List.mem_cons_self a t₁)
      have ha2' : a ∈ t₂ := by
        rcases List.mem_cons.mp ha2 with h | h
        · exact absurd h hne
        · exact h
      have hba : le b a = true := (List.pairwise_cons.mp hs₂).1 a ha2'
      have hb1 : b ∈ a :: t₁ := hp.symm.mem_iff.mp (List.mem_cons_self b t₂)
      have hb1' : b ∈ t₁ := by
        rcases List.mem_cons.mp hb1 with h | h
        · exact absurd h.symm hne
        · exact h
      have hab' : le a b = true := (List.pairwise_cons.mp hs₁).1 b hb1'
      exact hne (hanti a (List.mem_cons_self a t₁) b (List.mem_cons_of_mem a hb1')
        hab' hba)
    subst hab
    have hp' : t₁.Perm t₂ := hp.cons_inv
    have hrec := eq_of_perm_of_sorted_of_antisymm hp'
      (List.pairwise_cons.mp hs₁).2 (List.pairwise_cons.mp hs₂).2
      (fun x hx y hy => hanti x (List.mem_cons_of_mem a hx) y
        (List.mem_cons_of_mem a hy))
    rw [hrec]

/-! ### Facts about distinctFirst -/

theorem distinctFirst_mem (l : List String) (a : String) :
    a ∈ distinctFirst l ↔ a ∈ l := by
  match l with
  | [] => simp [distinctFirst]
  | x :: xs =>
    rw [distinctFirst]
    have ih := distinctFirst_mem (xs.filter (fun y => y ≠ x)) a
    simp only [List.mem_cons, ih, List.mem_filter]
    constructor
    · rintro (rfl | ⟨h1, -⟩)
      · exact Or.inl rfl
      · exact Or.inr h1
    · rintro (rfl | h1)
      · exact Or.inl rfl
      · by_cases hax : a = x
        · exact Or.inl hax
        · exact Or.inr ⟨h1, by simpa using hax⟩
termination_by l.length
decreasing_by
  simp only [List.length_cons]
  exact Nat.lt_succ_of_le (List.length_filter_le _ _)

theorem distinctFirst_nodup (l : List String) : (distinctFirst l).Nodup := by
  match l with
  | [] => simp [distinctFirst]
  | x :: xs =>
    rw [distinctFirst]
    refine List.nodup_cons.mpr ⟨?_, distinctFirst_nodup (xs.filter (fun y => y ≠ x))⟩
    intro hx
    have hmem := (distinctFirst_mem _ _).mp hx
    rw [List.mem_filter] at hmem
    simpa using hmem.2
termination_by l.length
decreasing_by
  simp only [List.length_cons]
  exact Nat.lt_succ_of_le (List.length_filter_le _ _)

/-! ### The dialog and the reachable-state invariant -/

theorem dialog_save_confirmed {t c d : String} {dn : Int} {p : LessonPayload}
    (h : dialog_save t c d dn = SaveOutcome.confirmed p) :
    p.title = pyStrip t ∧ p.title ≠ "" ∧ p.course = pyStrip c ∧
      p.course ≠ "" ∧ p.day = pyStrip d ∧ validate_iso_date p.day = true ∧
      p.done = dn := by
  simp only [dialog_save] at h
  split_ifs at h with h1 h2 h3
  injection h with h
  subst h
  refine ⟨rfl, h1, rfl, h2, rfl, ?_, rfl⟩
  simpa using h3

/-- Inductive invariant of the reachable store states. -/
def DBInv (db : LessonsDB) : Prop :=
  (db.rows.map Lesson.id).Nodup ∧
  ∀ r ∈ db.rows, r.id < db.nextId ∧ r.title ≠ "" ∧ r.course ≠ "" ∧
    validate_iso_date r.day = true ∧ (r.done = 0 ∨ r.done = 1)

theorem DBInv_init : DBInv initDB := by
  constructor <;> simp [initDB]

theorem DBInv_step {db db2 : LessonsDB} (hinv : DBInv db)
    (hs : AppStep db db2) : DBInv db2 := by
  obtain ⟨hnd, hrows⟩ := hinv
  cases hs with
  | add t c d dn now p h hdn =>
    obtain ⟨hpt, hpt0, hpc, hpc0, hpd, hpdv, hpdn⟩ := dialog_save_confirmed h
    constructor
    · simp only [add_lesson, List.map_append, List.map_cons, List.map_nil]
      rw [List.nodup_append]
      refine ⟨hnd, List.nodup_singleton _, ?_⟩
      intro x hx hx2
      simp only [List.mem_singleton] at hx2
      subst hx2
      rw [List.mem_map] at hx
      obtain ⟨r, hr, hrid⟩ := hx
      have := (hrows r hr).1
      omega
    · intro r hr
      simp only [add_lesson, List.mem_append, List.mem_singleton] at hr
      rcases hr with hr | hr
      · have := hrows r hr
        simp only [add_lesson]
        refine ⟨by omega, this.2.1, this.2.2.1, this.2.2.2.1, this.2.2.2.2⟩
      · subst hr
        simp only [add_lesson]
        refine ⟨by omega, ?_, ?_, ?_, ?_⟩
        · rw [hpt, pyStrip_idem, ← hpt]; exact hpt0
        · rw [hpc, pyStrip_idem, ← hpc]; exact hpc0
        · rw [validate_iso_date_pyStrip]; exact hpdv
        · rw [hpdn]; exact hdn
  | edit i t c d dn p h hdn =>
    obtain ⟨hpt, hpt0, hpc, hpc0, hpd, hpdv, hpdn⟩ := dialog_save_confirmed h
    constructor
    · have hids : (update_lesson db i p.title p.course p.day p.done).rows.map
          Lesson.id = db.rows.map Lesson.id := by
        simp only [update_lesson, List.map_map]
        refine List.map_congr_left ?_
        intro r hr
        by_cases hri : r.id = i <;> simp [hri]
      rw [hids]; exact hnd
    · intro r hr
      simp only [update_lesson, List.mem_map] at hr
      obtain ⟨r0, hr0, hr0e⟩ := hr
      have h0 := hrows r0 hr0
      by_cases hri : r0.id = i
      · rw [if_pos hri] at hr0e
        subst hr0e
        simp only [update_lesson]
        refine ⟨h0.1, ?_, ?_, ?_, ?_⟩
        · rw [hpt, pyStrip_idem, ← hpt]; exact hpt0
        · rw [hpc, pyStrip_idem, ← hpc]; exact hpc0
        · rw [validate_iso_date_pyStrip]; exact hpdv
        · rw [hpdn]; exact hdn
      · rw [if_neg hri] at hr0e
        subst hr0e
        simpa only [update_lesson] using h0
  | del i =>
    constructor
    · have hsub : List.Sublist ((delete_lesson db i).rows.map Lesson.id)
          (db.rows.map Lesson.id) :=
        List.Sublist.map Lesson.id (List.filter_sublist db.rows)
      exact List.Nodup.sublist hsub hnd
    · intro r hr
      simp only [delete_lesson, List.mem_filter] at hr
      simpa only [delete_lesson] using hrows r hr.1
  | toggle i =>
    constructor
    · have hids : (toggle_done db i).rows.map Lesson.id =
          db.rows.map Lesson.id := by
        simp only [toggle_done, List.map_map]
        refine List.map_congr_left ?_
        intro r hr
        by_cases hri : r.id = i <;> simp [hri]
      rw [hids]; exact hnd
    · intro r hr
      simp only [toggle_done, List.mem_map] at hr
      obtain ⟨r0, hr0, hr0e⟩ := hr
      have h0 := hrows r0 hr0
      by_cases hri : r0.id = i
      · rw [if_pos hri] at hr0e
        subst hr0e
        simp only [toggle_done]
        refine ⟨h0.1, h0.2.1, h0.2.2.1, h0.2.2.2.1, ?_⟩
        rcases h0.2.2.2.2 with h | h <;> simp [h]
      · rw [if_neg hri] at hr0e
        subst hr0e
        simpa only [toggle_done] using h0

theorem reachable_DBInv {db : LessonsDB} (h : Reachable db) : DBInv db := by
  induction h with
  | refl => exact DBInv_init
  | tail _ hstep ih => exact DBInv_step ih hstep

/-! ### Helpers about query -/

theorem mem_query_iff (db : LessonsDB) (d c : Option String) (u : Bool)
    (r : Lesson) :
    r ∈ query db d c u ↔ r ∈ db.rows ∧ keep_row d c u r = true := by
  unfold query
  rw [(List.mergeSort_perm _ _).mem_iff, List.mem_filter]

theorem query_pairwise (db : LessonsDB) (d c : Option String) (u : Bool) :
    (query db d c u).Pairwise (fun a b => rowLe a b = true) :=
  List.sorted_mergeSort rowLe_trans rowLe_total _

theorem keep_row_eq_spec (d c : Option String) (u : Bool) (r : Lesson) :
    keep_row d c u r = spec_query_keep d c u r := by
  unfold keep_row spec_query_keep
  have hd : (match d with
      | none => true
      | some s => if s ≠ "" ∧ s ≠ "TUTTE" then r.day == s else true) =
      (match d with
      | none => true
      | some s => if s = "TUTTE" ∨ s = "" then true else r.day == s) := by
    cases d with
    | none => rfl
    | some s =>
      dsimp only
      split_ifs <;> first | rfl | tauto
  have hc : (match c with
      | none => true
      | some s => if s ≠ "" ∧ s ≠ "TUTTI" then r.course == s else true) =
      (match c with
      | none => true
      | some s => if s = "TUTTI" ∨ s = "" then true else r.course == s) := by
    cases c with
    | none => rfl
    | some s =>
      dsimp only
      split_ifs <;> first | rfl | tauto
  have hu : (if u then r.done == 0 else true) = (!u || r.done == 0) := by
    cases u <;> simp
  rw [hd, hc, hu]

/-! ### The claims -/

/-- C1: for every store state and every combination of filters, the rows
returned by query are sorted by day ascending, then course ascending
case-insensitively, then done ascending, then id ascending, and the result
is the same for identical row multisets regardless of insertion order
(stated for stores whose ids are distinct, which holds in every reachable
state). -/
theorem c1_query_sorted_insertion_order_irrelevant
    (db₁ db₂ : LessonsDB) (d c : Option String) (u : Bool)
    (hperm : db₁.rows.Perm db₂.rows)
    (hids : (db₁.rows.map Lesson.id).Nodup) :
    (query db₁ d c u).Pairwise lessonOrdLe ∧
      query db₁ d c u = query db₂ d c u := by
  constructor
  · exact (query_pairwise db₁ d c u).imp (fun h => (rowLe_iff _ _).mp h)
  · unfold query
    apply eq_of_perm_of_sorted_of_antisymm
    · exact ((List.mergeSort_perm _ rowLe).trans
        (hperm.filter _)).trans (List.mergeSort_perm _ rowLe).symm
    · exact List.sorted_mergeSort rowLe_trans rowLe_total _
    · exact List.sorted_mergeSort rowLe_trans rowLe_total _
    · intro a ha b hb hab hba
      have ha2 : a ∈ db₁.rows :=
        (List.mem_filter.mp ((List.mergeSort_perm _ rowLe).mem_iff.mp ha)).1
      have hb2 : b ∈ db₁.rows :=
        (List.mem_filter.mp ((List.mergeSort_perm _ rowLe).mem_iff.mp hb)).1
      have hkey := rowLe_antisymm_key hab hba
      have hid : a.id = b.id := ((rowCmp_eq_iff a b).mp hkey).2.2.2
      exact List.inj_on_of_nodup_map hids ha2 hb2 hid

/-- First store of the C1 witness: two rows inserted in one order. -/
def c1dbA : LessonsDB :=
  ⟨[⟨1, "Algebra", "Math", "2025-01-02", 0, "t1"⟩,
    ⟨2, "Rome", "History", "2025-01-01", 0, "t2"⟩], 3⟩

/-- Second store of the C1 witness: the same rows in the other order. -/
def c1dbB : LessonsDB :=
  ⟨[⟨2, "Rome", "History", "2025-01-01", 0, "t2"⟩,
    ⟨1, "Algebra", "Math", "2025-01-02", 0, "t1"⟩], 3⟩

theorem c1_witness :
    (query c1dbA none none false).Pairwise lessonOrdLe ∧
      query c1dbA none none false = query c1dbB none none false :=
  c1_query_sorted_insertion_order_irrelevant c1dbA c1dbB none none false
    (by decide) (by decide)

/-- C2: query returns exactly the rows satisfying the conjunction of the
three filter conditions of the specification: no day restriction when the
day filter is absent, empty or the all-days sentinel TUTTE, otherwise
day equality; likewise for the course filter with the sentinel TUTTI; and
done = 0 when onlyUndone is set. -/
theorem c2_query_returns_exactly_matching_rows
    (db : LessonsDB) (d c : Option String) (u : Bool) :
    (query db d c u).Perm (db.rows.filter (spec_query_keep d c u)) ∧
      ∀ r, r ∈ query db d c u ↔
        r ∈ db.rows ∧ spec_query_keep d c u r = true := by
  have hfil : db.rows.filter (keep_row d c u) =
      db.rows.filter (spec_query_keep d c u) :=
    List.filter_congr (fun r _ => keep_row_eq_spec d c u r)
  constructor
  · unfold query
    rw [hfil]
    exact List.mergeSort_perm _ _
  · intro r
    rw [mem_query_iff, keep_row_eq_spec]

/-- C3: every valid insert (non-empty trimmed title and course, day passing
the date validation) is visible in a subsequent unfiltered query as a row
whose title, course and day are exactly the trimmed inputs and whose done
flag is 0 when the done argument is left at its default. -/
theorem c3_create_then_query_returns_trimmed_row
    (db : LessonsDB) (t c d now : String)
    (ht : pyStrip t ≠ "") (hc : pyStrip c ≠ "")
    (hd : validate_iso_date d = true) :
    ∃ r ∈ query (add_lesson db t c d 0 now) (some "TUTTE") (some "TUTTI")
        false,
      r.title = pyStrip t ∧ r.course = pyStrip c ∧ r.day = pyStrip d ∧
        r.done = 0 := by
  refine ⟨⟨db.nextId, pyStrip t, pyStrip c, pyStrip d, 0, now⟩, ?_,
    rfl, rfl, rfl, rfl⟩
  rw [mem_query_iff]
  constructor
  · simp [add_lesson]
  · unfold keep_row
    dsimp only
    rw [if_neg (by simp), if_neg (by simp)]
    rfl

theorem c3_witness :
    ∃ r ∈ query (add_lesson initDB "  Algebra " " Math" "2025-01-05" 0 "ts")
        (some "TUTTE") (some "TUTTI") false,
      r.title = pyStrip "  Algebra " ∧ r.course = pyStrip " Math" ∧
        r.day = pyStrip "2025-01-05" ∧ r.done = 0 :=
  c3_create_then_query_returns_trimmed_row initDB "  Algebra " " Math"
    "2025-01-05" "ts" (by decide) (by decide) (by decide)

/-- A reachable store state holding a row whose day is the unpadded string
2025-1-5, which the dialog accepts. -/
def c4bad : LessonsDB :=
  add_lesson initDB "Algebra" "Math" "2025-1-5" 0 "2025-01-01 00:00:00"

/-- C4 counterexample: the state `c4bad` is reachable through the dialog
(its day entry 2025-1-5 passes `validate_iso_date`, because the strptime
month and day patterns accept single digits), yet its stored day does not
match the zero-padded ISO YYYY-MM-DD pattern stated by the claim. -/
theorem c4_counterexample :
    Reachable c4bad ∧
      ¬ (∀ r ∈ c4bad.rows, spec_iso_pattern r.day = true) := by
  constructor
  · refine Relation.ReflTransGen.single ?_
    exact AppStep.add initDB "Algebra" "Math" "2025-1-5" 0
      "2025-01-01 00:00:00" ⟨"Algebra", "Math", "2025-1-5", 0⟩ (by decide)
      (Or.inl rfl)
  · decide

/-- C4 amended: in every reachable store state, id identifies exactly one
row (the ids are distinct), title and course are never stored empty, and
day always passes the date validation of the program (strptime %Y-%m-%d,
which also accepts unpadded single-digit month or day). -/
theorem c4_amended_reachable_invariants (db : LessonsDB)
    (h : Reachable db) :
    (db.rows.map Lesson.id).Nodup ∧
      ∀ r ∈ db.rows, r.title ≠ "" ∧ r.course ≠ "" ∧
        validate_iso_date r.day = true := by
  obtain ⟨hnd, hrows⟩ := reachable_DBInv h
  exact ⟨hnd, fun r hr =>
    ⟨(hrows r hr).2.1, (hrows r hr).2.2.1, (hrows r hr).2.2.2.1⟩⟩

theorem c4_witness :
    (c4bad.rows.map Lesson.id).Nodup ∧
      ∀ r ∈ c4bad.rows, r.title ≠ "" ∧ r.course ≠ "" ∧
        validate_iso_date r.day = true :=
  c4_amended_reachable_invariants c4bad
    (Relation.ReflTransGen.single
      (AppStep.add initDB "Algebra" "Math" "2025-1-5" 0
        "2025-01-01 00:00:00" ⟨"Algebra", "Math", "2025-1-5", 0⟩ (by decide)
        (Or.inl rfl)))

/-- C5: toggling the same id twice restores the store exactly, for every
store whose done flags are the 0/1 values the application writes. -/
theorem c5_toggle_involution (db : LessonsDB) (i : Int)
    (h : ∀ r ∈ db.rows, r.done = 0 ∨ r.done = 1) :
    toggle_done (toggle_done db i) i = db := by
  unfold toggle_done
  cases db with
  | mk rows nextId =>
    simp only [List.map_map]
    congr 1
    have hpt : ∀ r ∈ rows,
        ((fun r : Lesson =>
            if r.id = i then { r with done := if r.done = 0 then 1 else 0 }
            else r) ∘
          (fun r : Lesson =>
            if r.id = i then { r with done := if r.done = 0 then 1 else 0 }
            else r)) r = id r := by
      intro r hr
      obtain ⟨rid, rtitle, rcourse, rday, rdone, rcat⟩ := r
      rcases h _ hr with h0 | h0 <;> subst h0 <;>
        by_cases hri : rid = i <;> simp [Function.comp, hri]
    rw [List.map_congr_left hpt, List.map_id]

/-- Store of the C5 and C6 witnesses. -/
def c5db : LessonsDB :=
  ⟨[⟨1, "Algebra", "Math", "2025-01-02", 0, "t1"⟩,
    ⟨2, "Rome", "History", "2025-01-01", 1, "t2"⟩], 3⟩

theorem c5_witness : toggle_done (toggle_done c5db 2) 2 = c5db :=
  c5_toggle_involution c5db 2 (by decide)

/-- C6: toggle changes at most the done field of the row matching the id:
the row at every position keeps its id, title, course, day and created_at,
the row count is unchanged, and a row whose id differs from the toggled id
is wholly unchanged. -/
theorem c6_toggle_frame (db : LessonsDB) (i : Int) (j : Nat) (r : Lesson)
    (hr : db.rows[j]? = some r) :
    (toggle_done db i).rows.length = db.rows.length ∧
      ∃ r2, (toggle_done db i).rows[j]? = some r2 ∧ r2.id = r.id ∧
        r2.title = r.title ∧ r2.course = r.course ∧ r2.day = r.day ∧
        r2.created_at = r.created_at ∧ (r.id ≠ i → r2 = r) := by
  constructor
  · simp [toggle_done]
  · have hmap : (toggle_done db i).rows[j]? =
        some (if r.id = i then { r with done := if r.done = 0 then 1 else 0 }
          else r) := by
      simp only [toggle_done]
      rw [List.getElem?_map, hr]
      rfl
    by_cases hri : r.id = i
    · rw [if_pos hri] at hmap
      exact ⟨_, hmap, rfl, rfl, rfl, rfl, rfl, fun hne => absurd hri hne⟩
    · rw [if_neg hri] at hmap
      exact ⟨_, hmap, rfl, rfl, rfl, rfl, rfl, fun _ => rfl⟩

theorem c6_witness :
    (toggle_done c5db 2).rows.length = c5db.rows.length ∧
      ∃ r2, (toggle_done c5db 2).rows[0]? = some r2 ∧
        r2.id = (⟨1, "Algebra", "Math", "2025-01-02", 0, "t1"⟩ : Lesson).id ∧
        r2.title = (⟨1, "Algebra", "Math", "2025-01-02", 0, "t1"⟩ : Lesson).title ∧
        r2.course = (⟨1, "Algebra", "Math", "2025-01-02", 0, "t1"⟩ : Lesson).course ∧
        r2.day = (⟨1, "Algebra", "Math", "2025-01-02", 0, "t1"⟩ : Lesson).day ∧
        r2.created_at = (⟨1, "Algebra", "Math", "2025-01-02", 0, "t1"⟩ : Lesson).created_at ∧
        ((⟨1, "Algebra", "Math", "2025-01-02", 0, "t1"⟩ : Lesson).id ≠ 2 →
          r2 = ⟨1, "Algebra", "Math", "2025-01-02", 0, "t1"⟩) :=
  c6_toggle_frame c5db 2 0 ⟨1, "Algebra", "Math", "2025-01-02", 0, "t1"⟩
    (by decide)

/-- C7: a query after delete never returns a row with the deleted id, and
update, toggle and delete on an id not present in the store leave the store
exactly unchanged, with no error. -/
theorem c7_delete_excludes_and_missing_id_is_noop
    (db : LessonsDB) (i : Int) (d c : Option String) (u : Bool)
    (t cc dd : String) (dn : Int) (r : Lesson) :
    (r ∈ query (delete_lesson db i) d c u → r.id ≠ i) ∧
      ((∀ s ∈ db.rows, s.id ≠ i) →
        update_lesson db i t cc dd dn = db ∧ toggle_done db i = db ∧
          delete_lesson db i = db) := by
  constructor
  · intro hmem
    have h1 := ((mem_query_iff _ d c u r).mp hmem).1
    simp only [delete_lesson, List.mem_filter] at h1
    simpa using h1.2
  · intro habs
    refine ⟨?_, ?_, ?_⟩
    · have h2 : ∀ s ∈ db.rows, (fun r : Lesson =>
          if r.id = i then
            { r with
              title := pyStrip t
              course := pyStrip cc
              day := pyStrip dd
              done := dn }
          else r) s = id s := fun s hs => by simp [habs s hs]
      unfold update_lesson
      rw [List.map_congr_left h2, List.map_id]
    · have h2 : ∀ s ∈ db.rows, (fun r : Lesson =>
          if r.id = i then { r with done := if r.done = 0 then 1 else 0 }
          else r) s = id s := fun s hs => by simp [habs s hs]
      unfold toggle_done
      rw [List.map_congr_left h2, List.map_id]
    · have h2 : db.rows.filter (fun r => r.id ≠ i) = db.rows :=
        List.filter_eq_self.mpr (fun s hs => by simpa using habs s hs)
      unfold delete_lesson
      rw [h2]

theorem c7_witness :
    (⟨2, "Rome", "History", "2025-01-01", 1, "t2"⟩ : Lesson).id ≠ 1 ∧
      update_lesson c5db 99 "x" "y" "2025-01-01" 0 = c5db ∧
        toggle_done c5db 99 = c5db ∧ delete_lesson c5db 99 = c5db :=
  ⟨(c7_delete_excludes_and_missing_id_is_noop c5db 1 none none false
      "x" "y" "2025-01-01" 0
      ⟨2, "Rome", "History", "2025-01-01", 1, "t2"⟩).1
      ((mem_query_iff _ none none false _).mpr (by decide)),
    (c7_delete_excludes_and_missing_id_is_noop c5db 99 none none false
      "x" "y" "2025-01-01" 0
      ⟨2, "Rome", "History", "2025-01-01", 1, "t2"⟩).2 (by decide)⟩

/-- C8: listCourses returns each distinct course string exactly once
(original casing preserved, case variants kept apart), ordered ascending
under the case-insensitive comparison. -/
theorem c8_list_courses_distinct_and_sorted (db : LessonsDB) :
    (list_courses db).Nodup ∧
      (∀ s, s ∈ list_courses db ↔ s ∈ db.rows.map Lesson.course) ∧
      (list_courses db).Pairwise (fun a b => courseLe a b = true) := by
  refine ⟨?_, ?_, ?_⟩
  · exact (List.mergeSort_perm _ courseLe).symm.nodup
      (distinctFirst_nodup (db.rows.map Lesson.course))
  · intro s
    unfold list_courses
    rw [(List.mergeSort_perm _ _).mem_iff, distinctFirst_mem]
  · exact List.sorted_mergeSort courseLe_trans courseLe_total _

/-- C9: a save whose title is empty after trimming is rejected inside the
dialog: the dialog stays open, the store receives no call, and the row
count is unchanged — for the add interaction and the edit interaction. -/
theorem c9_empty_title_rejected_before_store (db : LessonsDB) (i : Int)
    (rt rc rd : String) (dn : Int) (now : String)
    (h : pyStrip rt = "") :
    app_add_save db rt rc rd dn now = (db, true) ∧
      app_edit_save db i rt rc rd dn = (db, true) ∧
      (app_add_save db rt rc rd dn now).1.rows.length = db.rows.length := by
  have hd : dialog_save rt rc rd dn = SaveOutcome.rejectedTitle := by
    simp only [dialog_save]
    rw [if_pos h]
  refine ⟨?_, ?_, ?_⟩ <;> simp [app_add_save, app_edit_save, hd]

theorem c9_witness :
    app_add_save c5db "  " "Math" "2025-01-05" 0 "ts" = (c5db, true) ∧
      app_edit_save c5db 1 "  " "Math" "2025-01-05" 0 = (c5db, true) ∧
      (app_add_save c5db "  " "Math" "2025-01-05" 0 "ts").1.rows.length =
        c5db.rows.length :=
  c9_empty_title_rejected_before_store c5db 1 "  " "Math" "2025-01-05" 0
    "ts" (by decide)

/-- C10: the sentinel strings shadow data values: a course filter equal to
TUTTI (and a day filter equal to TUTTE) imposes no restriction, so a row
whose course is literally TUTTI can never be selected by an active course
filter, and a row whose day is literally TUTTE can never be selected by an
active day filter. -/
theorem c10_sentinels_shadow_literal_values
    (db : LessonsDB) (d c : Option String) (cf df : String) (u : Bool)
    (r : Lesson) (hrc : r.course = "TUTTI") (hrd : r.day = "TUTTE")
    (hcf1 : cf ≠ "") (hcf2 : cf ≠ "TUTTI")
    (hdf1 : df ≠ "") (hdf2 : df ≠ "TUTTE") :
    query db d (some "TUTTI") u = query db d none u ∧
      query db (some "TUTTE") c u = query db none c u ∧
      r ∉ query db d (some cf) u ∧
      r ∉ query db (some df) c u := by
  refine ⟨?_, ?_, ?_, ?_⟩
  · unfold query
    rw [List.filter_congr (q := keep_row d none u) (fun x _ => ?_)]
    unfold keep_row
    dsimp only
    rw [if_neg (by simp)]
  · unfold query
    rw [List.filter_congr (q := keep_row none c u) (fun x _ => ?_)]
    unfold keep_row
    dsimp only
    rw [if_neg (by simp)]
  · intro hmem
    have hkeep := ((mem_query_iff _ _ _ _ _).mp hmem).2
    unfold keep_row at hkeep
    simp only [Bool.and_eq_true] at hkeep
    have hmid := hkeep.1.2
    rw [if_pos ⟨hcf1, hcf2⟩] at hmid
    rw [hrc] at hmid
    exact hcf2 (beq_iff_eq.mp hmid).symm
  · intro hmem
    have hkeep := ((mem_query_iff _ _ _ _ _).mp hmem).2
    unfold keep_row at hkeep
    simp only [Bool.and_eq_true] at hkeep
    have hmid := hkeep.1.1
    rw [if_pos ⟨hdf1, hdf2⟩] at hmid
    rw [hrd] at hmid
    exact hdf2 (beq_iff_eq.mp hmid).symm

/-- Store of the C10 witness: one row whose course is literally TUTTI and
whose day is literally TUTTE. -/
def c10db : LessonsDB := ⟨[⟨1, "Shadow", "TUTTI", "TUTTE", 0, "t1"⟩], 2⟩

theorem c10_witness :
    query c10db none (some "TUTTI") false = query c10db none none false ∧
      query c10db (some "TUTTE") none false =
        query c10db none none false ∧
      (⟨1, "Shadow", "TUTTI", "TUTTE", 0, "t1"⟩ : Lesson) ∉
        query c10db none (some "Math") false ∧
      (⟨1, "Shadow", "TUTTI", "TUTTE", 0, "t1"⟩ : Lesson) ∉
        query c10db (some "2025-01-05") none false :=
  c10_sentinels_shadow_literal_values c10db none none "Math" "2025-01-05"
    false ⟨1, "Shadow", "TUTTI", "TUTTE", 0, "t1"⟩ (by decide) (by decide)
    (by decide) (by decide) (by decide) (by decide)
